import Mathlib

/-!
# Verification of the bureaucrate release-bookkeeping tool

A shallow embedding of `src/main.rs` (and of the `bump` module it uses):
the bump-level value type, the bump-propagation fixed-point loop, commit
attribution by path prefix, changelog insertion, and the dry-run/execute
output phases.
-/

/-- Modelled from the spec: the `Bump` type lives in `src/bump.rs`, which is
not part of the provided sources.  The spec fixes it as a small ordered value
type `{None, Patch, Minor, Major}` with total ordering
`None < Patch < Minor < Major`. -/
inductive Bump where
  | none
  | patch
  | minor
  | major
deriving DecidableEq, Repr

/-- Numeric rank of a bump level, realising `None < Patch < Minor < Major`. -/
def Bump.toNat : Bump → Nat
  | .none => 0
  | .patch => 1
  | .minor => 2
  | .major => 3

instance : LT Bump := ⟨fun a b => a.toNat < b.toNat⟩
instance : LE Bump := ⟨fun a b => a.toNat ≤ b.toNat⟩

instance (a b : Bump) : Decidable (a < b) :=
  inferInstanceAs (Decidable (a.toNat < b.toNat))

instance (a b : Bump) : Decidable (a ≤ b) :=
  inferInstanceAs (Decidable (a.toNat ≤ b.toNat))

theorem Bump.le_refl (a : Bump) : a ≤ a := Nat.le_refl _

theorem Bump.le_trans {a b c : Bump} (h1 : a ≤ b) (h2 : b ≤ c) : a ≤ c :=
  Nat.le_trans h1 h2

theorem Bump.le_of_lt {a b : Bump} (h : a < b) : a ≤ b := Nat.le_of_lt h

/-- Modelled from the spec: semantic versions as major/minor/patch triples
(the `semver::Version` used by the code; the spec's bump arithmetic only
touches these three components). -/
structure Version where
  major : Nat
  minor : Nat
  patch : Nat
deriving DecidableEq, Repr

/-- Modelled from the spec: `Bump::apply` lives in `src/bump.rs`, which is not
part of the provided sources.  The spec defines it: `None` leaves the version
unchanged, `Patch` increments the patch component, `Minor` increments minor and
resets patch, `Major` increments major and resets minor and patch. -/
def Bump.apply : Bump → Version → Version
  | .none, v => v
  | .patch, v => { v with patch := v.patch + 1 }
  | .minor, v => { major := v.major, minor := v.minor + 1, patch := 0 }
  | .major, v => { major := v.major + 1, minor := 0, patch := 0 }

/-!
## The bump-propagation loop (src/main.rs lines 214–249)

The per-package state relevant to propagation is each package's current bump
level; packages are indexed `0, …, n-1` and the map `statuses` becomes a
`List Bump` read with default `Bump.none` (every package id is in range in
the program, since one status is created per workspace package).

The loop body is two sequential rule sweeps over an evolving state together
with a `bumped` flag that records whether any rule fired during the pass.
-/

/-- A workspace as the propagation loop sees it: the number of packages, the
nested-containment pairs `(outer, inner)`, and the direct-dependency query
`directly_depends_on(dependent, dependency)`. -/
structure Workspace where
  n : Nat
  nestedPairs : List (Nat × Nat)
  dependsOn : Nat → Nat → Bool

/-- Read a package's bump from the state (every id used is in range). -/
def getBump (s : List Bump) (i : Nat) : Bump := s.getD i Bump.none

/-- One direction of the nested-equality rule, src/main.rs lines 218–227:
for direction `(a, b)`, if `statuses[b].bump < statuses[a].bump` the code
assigns `statuses.get_mut(inner)` — always the `inner` of the pair, not `b` —
the value `statuses[a].bump`, and sets `bumped`. -/
def nestedDir (inner : Nat) (ab : Nat × Nat) (acc : List Bump × Bool) :
    List Bump × Bool :=
  if getBump acc.1 ab.2 < getBump acc.1 ab.1 then
    (acc.1.set inner (getBump acc.1 ab.1), true)
  else acc

/-- The nested-equality sweep: each nested pair `(outer, inner)` is evaluated
in direction `(outer, inner)` and then `(inner, outer)`, mutating in place. -/
def nestedSweep (pairs : List (Nat × Nat)) (acc : List Bump × Bool) :
    List Bump × Bool :=
  pairs.foldl
    (fun acc oi => nestedDir oi.2 (oi.2, oi.1) (nestedDir oi.2 (oi.1, oi.2) acc))
    acc

/-- Inner body of the dependency sweep, src/main.rs lines 233–247: for a fixed
bumped package `id` and candidate `dependent`, if `dependent` directly depends
on `id` and its bump is below `Patch`, raise it to exactly `Patch`. -/
def depInner (w : Workspace) (id : Nat) (acc : List Bump × Bool)
    (dependent : Nat) : List Bump × Bool :=
  if w.dependsOn dependent id then
    if Bump.patch ≤ getBump acc.1 dependent then acc
    else (acc.1.set dependent Bump.patch, true)
  else acc

/-- Outer body of the dependency sweep, src/main.rs lines 229–248: a package
`id` whose bump is `None` at the time it is reached is skipped, otherwise all
workspace packages are scanned as candidate dependents. -/
def depStep (w : Workspace) (acc : List Bump × Bool) (id : Nat) :
    List Bump × Bool :=
  if getBump acc.1 id = Bump.none then acc
  else (List.range w.n).foldl (depInner w id) acc

/-- One full pass of the `while bumped` loop body: the nested-equality sweep
followed by the dependency sweep, with the `bumped` flag reset to `false` at
the start of the pass. -/
def runPass (w : Workspace) (s : List Bump) : List Bump × Bool :=
  (List.range w.n).foldl (depStep w) (nestedSweep w.nestedPairs (s, false))

/-- The state after `k` complete passes of the loop. -/
def passSeq (w : Workspace) (s : List Bump) : Nat → List Bump
  | 0 => s
  | k + 1 => (runPass w (passSeq w s k)).1

/-- The `while bumped` loop (entered with `bumped = true`) terminates exactly
when some pass reports no change. -/
def loopTerminatesWithin (w : Workspace) (s : List Bump) (bound : Nat) : Prop :=
  ∃ k, k < bound ∧ (runPass w (passSeq w s k)).2 = false

/-- A three-package workspace: package 1 is nested inside package 0, and
package 1 directly depends on package 2.  Package 2 is independent. -/
def W0 : Workspace where
  n := 3
  nestedPairs := [(0, 1)]
  dependsOn := fun d p => d == 1 && p == 2

/-- Seeded bumps for `W0` as the classifier phase can produce them: the two
top-level packages 0 and 2 are scanned, the classifier requests `Minor` for
package 2 and nothing for package 0; nested package 1 is never scanned and
starts at `None`. -/
def bumpSeed0 : List Bump := [Bump.none, Bump.none, Bump.minor]

/-!
## Commit attribution (src/main.rs lines 159–198)

File paths are lists of components, so that `Path::starts_with` becomes
component-wise prefix.  A delta carries an optional old and new path, a commit
carries one delta list per parent (the `diff_tree_to_tree` result after rename
detection) plus its own tree contents, which the code obtains (line 162) but
only ever diffs against parents.
-/

/-- One changed file of a tree-to-tree diff. -/
structure Delta where
  oldPath : Option (List String)
  newPath : Option (List String)
deriving DecidableEq, Repr

/-- A commit as the attribution walk sees it. -/
structure CommitM where
  id : Nat
  parentDiffs : List (List Delta)
  treeFiles : List (List String)
deriving DecidableEq, Repr

/-- Lines 175–184: a delta is relevant when its old path or new path lies
under the package directory prefix. -/
def deltaTouches (pkgdir : List String) (d : Delta) : Bool :=
  ([d.oldPath, d.newPath].filterMap (fun x => x)).any
    (fun f => pkgdir.isPrefixOf f)

/-- Lines 164–186: the `changed` flag — some parent diff has some relevant
delta.  A commit with zero parents never sets it. -/
def commitTouches (pkgdir : List String) (c : CommitM) : Bool :=
  c.parentDiffs.any (fun diff => diff.any (deltaTouches pkgdir))

/-- Lines 158–198: the package's attributed commit list, in walk order; a
commit is pushed once iff its `changed` flag was set. -/
def attributeCommits (pkgdir : List String) (walk : List CommitM) :
    List CommitM :=
  walk.filter (commitTouches pkgdir)

/-- A root commit that introduces a file under package directory `pkg` in its
tree, with zero parents (so zero parent diffs). -/
def rootCommit : CommitM where
  id := 0
  parentDiffs := []
  treeFiles := [["pkg", "src", "lib.rs"]]

/-- An ordinary commit with one parent whose diff adds one file under package
directory `pkg`. -/
def touchCommit : CommitM where
  id := 5
  parentDiffs := [[{ oldPath := Option.none, newPath := some ["pkg", "f.rs"] }]]
  treeFiles := [["pkg", "f.rs"]]

/-!
## Changelog insertion (src/main.rs lines 308–347)

Strings are modelled as `List Char`; `str::find` of the marker becomes a
first-occurrence split, `str::trim` trims ASCII whitespace, `str::lines`
splits on a newline.
-/

/-- The changelog insertion marker (src/main.rs line 26). -/
def COMMENT_START : String := "<!-- bureaucrate goes here -->\n"

/-- The marker as a character list. -/
def markerChars : List Char := COMMENT_START.toList

/-- Whitespace as trimmed by `str::trim` (restricted to its ASCII cases, the
only ones the claims need). -/
def isWS (c : Char) : Bool :=
  c == ' ' || c == '\n' || c == '\t' || c == '\r'

/-- `str::trim`: remove leading and trailing whitespace. -/
def trimChars (l : List Char) : List Char :=
  ((l.dropWhile isWS).reverse.dropWhile isWS).reverse

/-- Split on newline characters (the behaviour of `str::lines` on text with no
trailing newline, the only way it is called here: always on trimmed text). -/
def splitLinesChars : List Char → List (List Char)
  | [] => [[]]
  | c :: rest =>
    if c = '\n' then [] :: splitLinesChars rest
    else
      match splitLinesChars rest with
      | [] => [[c]]
      | l :: ls => (c :: l) :: ls

/-- Lines 337–342 (and the identical dry-run loop 275–280): trim the
changelog body, then emit each line with a `#` prepended when the line starts
with `#` (shifting headings one level down), each line newline-terminated. -/
def shiftBody (body : List Char) : List Char :=
  let t := trimChars body
  if t = [] then []
  else
    (splitLinesChars t).foldr
      (fun line acc =>
        (if line.head? = some '#' then '#' :: line else line) ++ '\n' :: acc)
      []

/-- Lines 330–343: the inserted entry — a `## [v<version>] <date>` heading, a
blank line, the heading-shifted body, and a final newline. -/
def entryChars (ver date body : List Char) : List Char :=
  "## [v".toList ++ ver ++ "] ".toList ++ date ++ "\n\n".toList ++
    shiftBody body ++ ['\n']

/-- Split a character list around the first occurrence of `marker`: returns
the part before it and the part after it (`str::find` plus the two slices the
code takes). -/
def splitMarker (marker : List Char) : List Char → Option (List Char × List Char)
  | [] => if marker.isPrefixOf ([] : List Char) then some ([], []) else none
  | c :: rest =>
    if marker.isPrefixOf (c :: rest) then
      some ([], List.drop marker.length (c :: rest))
    else (splitMarker marker rest).map (fun pr => (c :: pr.1, pr.2))

/-- Lines 317–346: the new changelog content.  If the old content contains the
marker, everything up to and including the marker is kept, the entry follows,
then the rest of the old content; otherwise the marker is prepended and the
whole old content follows the entry.  The result is written `trim`med. -/
def writeChangelogContent (old ver date body : List Char) : List Char :=
  match splitMarker markerChars old with
  | some pr => trimChars (pr.1 ++ markerChars ++ entryChars ver date body ++ pr.2)
  | none => trimChars (markerChars ++ entryChars ver date body ++ old)

/-!
## Output phase: dry-run report and execute-mode writes
(src/main.rs lines 251–364)
-/

/-- Render a version the way `Display` for `semver::Version` does for plain
major.minor.patch versions. -/
def versionString (v : Version) : String :=
  toString v.major ++ "." ++ toString v.minor ++ "." ++ toString v.patch

/-- Render a bump the way `{:?}` does. -/
def bumpDebug : Bump → String
  | .none => "None"
  | .patch => "Patch"
  | .minor => "Minor"
  | .major => "Major"

/-- A parsed manifest: the `[package] version` entry plus everything else,
which `toml_edit` preserves verbatim. -/
structure ManifestDoc where
  packageVersion : String
  rest : List (String × String)
deriving DecidableEq, Repr

/-- Lines 354–362: replace the `[package] version` value, keep the rest. -/
def setManifestVersion (m : ManifestDoc) (v : String) : ManifestDoc :=
  { m with packageVersion := v }

/-- The per-package state the output phase consumes: `PackageStatus` after
propagation, together with the package metadata and the parsed on-disk
manifest it reads. -/
structure PkgStatusM where
  name : String
  version : Version
  changelog : String
  bump : Bump
  bump_reasons : List String
  changelogPath : String
  manifestPath : String
  manifest : ManifestDoc

/-- `PackageStatus::final_version` (src/main.rs lines 67–69). -/
def final_version (p : PkgStatusM) : Version := p.bump.apply p.version

/-- A file write performed in execute mode. -/
inductive Effect where
  | changelogWrite (path : String) (content : List Char)
  | manifestWrite (path : String) (doc : ManifestDoc)
deriving DecidableEq

/-- An apostrophe character, for report text. -/
def apos : String := String.singleton (Char.ofNat 39)

/-- Lines 253–304: the dry-run Markdown report. -/
def dryRunReport (sts : List PkgStatusM) : String :=
  "Hey, seems like you need to have changelog and version bumps for your PR?\n\nDon" ++
    apos ++ "t worry, i" ++ apos ++
    "ve got you covered, if you have proper commit messages, then changelog generated by me should be okay for you\n\n" ++
  "# Changes\n\n" ++
  "After your confirmation, I will append the following entries to changelogs of packages:\n\n" ++
  (sts.foldl
    (fun out p =>
      if (trimChars p.changelog.toList) = [] then out
      else
        out ++ "## " ++ p.name ++ " v" ++ versionString (final_version p) ++
          " (" ++ bumpDebug p.bump ++ " bump)\n\n" ++
          String.mk (shiftBody p.changelog.toList))
    "") ++
  "\n\n" ++ "# Bumps\n\n" ++
  "I may not be able to describe reason for bump, but they should be required:\n\n" ++
  (sts.foldl
    (fun out p =>
      if p.bump = Bump.none then out
      else
        p.bump_reasons.foldl (fun out r => out ++ "- " ++ r ++ "\n\n")
          (out ++ p.name ++ " `" ++ versionString p.version ++ "` -> `" ++
            versionString (p.bump.apply p.version) ++ "`\n\n"))
    "")

/-- Lines 308–347: one changelog write per package with a non-empty changelog
string; the old content is read from the file system (`readFs`), a missing
file counting as empty. -/
def executeChangelogWrites (date : List Char) (readFs : String → Option String)
    (sts : List PkgStatusM) : List Effect :=
  sts.filterMap (fun p =>
    if p.changelog = "" then Option.none
    else
      some (Effect.changelogWrite p.changelogPath
        (writeChangelogContent ((readFs p.changelogPath).getD "").toList
          (versionString (final_version p)).toList date p.changelog.toList)))

/-- Lines 348–364: one manifest write per package — every package, whatever
its bump — with the version field set to the final version. -/
def executeManifestWrites (sts : List PkgStatusM) : List Effect :=
  sts.map (fun p =>
    Effect.manifestWrite p.manifestPath
      (setManifestVersion p.manifest (versionString (final_version p))))

/-- Lines 251–364: the whole output phase.  Without `--execute` the report is
printed and the function returns with no writes (the early return at line
305); with `--execute` nothing is printed and the changelog writes happen
first, then the manifest writes. -/
def runOutput (execute : Bool) (date : List Char)
    (readFs : String → Option String) (sts : List PkgStatusM) :
    String × List Effect :=
  if execute then
    ("", executeChangelogWrites date readFs sts ++ executeManifestWrites sts)
  else (dryRunReport sts, [])

/-- A sample package status after propagation: one package `core` at version
1.2.3 with a `Minor` bump and a one-line changelog. -/
def samplePkg : PkgStatusM where
  name := "core"
  version := { major := 1, minor := 2, patch := 3 }
  changelog := "x"
  bump := Bump.minor
  bump_reasons := ["changelog generator decided to bump to Minor"]
  changelogPath := "core/CHANGELOG.md"
  manifestPath := "core/Cargo.toml"
  manifest := { packageVersion := "1.2.3", rest := [] }

/-!
## Helper lemmas about state reads and writes
-/

theorem getBump_set_ne {s : List Bump} {i j : Nat} {v : Bump} (h : i ≠ j) :
    getBump (s.set i v) j = getBump s j := by
  simp [getBump, List.getD_eq_getElem?_getD, List.getElem?_set_ne h]

theorem getBump_set_self (s : List Bump) (i : Nat) (v : Bump) :
    getBump (s.set i v) i = if i < s.length then v else getBump s i := by
  simp only [getBump, List.getD_eq_getElem?_getD, List.getElem?_set_self']
  split
  · rename_i h
    rw [List.getElem?_eq_getElem h]
    rfl
  · rename_i h
    simp [List.getElem?_eq_none (Nat.le_of_not_lt h)]

theorem getBump_set_le {s : List Bump} {i : Nat} {v : Bump}
    (h : getBump s i ≤ v) : ∀ j, getBump s j ≤ getBump (s.set i v) j := by
  intro j
  by_cases hij : i = j
  · subst hij
    rw [getBump_set_self]
    split
    · exact h
    · exact Bump.le_refl _
  · rw [getBump_set_ne hij]
    exact Bump.le_refl _

/-!
## Monotonicity of the propagation rules
-/

theorem nestedDir_mono (inner : Nat) (ab : Nat × Nat) (acc : List Bump × Bool)
    (hin : inner = ab.1 ∨ inner = ab.2) :
    ∀ j, getBump acc.1 j ≤ getBump (nestedDir inner ab acc).1 j := by
  intro j
  unfold nestedDir
  split
  · rename_i hlt
    refine getBump_set_le ?_ j
    rcases hin with h | h
    · subst h; exact Bump.le_refl _
    · subst h; exact Bump.le_of_lt hlt
  · exact Bump.le_refl _

theorem depInner_mono (w : Workspace) (id : Nat) (acc : List Bump × Bool)
    (d : Nat) : ∀ j, getBump acc.1 j ≤ getBump (depInner w id acc d).1 j := by
  intro j
  unfold depInner
  split
  · split
    · exact Bump.le_refl _
    · rename_i hnle
      refine getBump_set_le ?_ j
      exact Nat.le_of_lt (Nat.lt_of_not_le hnle)
  · exact Bump.le_refl _

theorem foldl_mono {α : Type} (f : (List Bump × Bool) → α → (List Bump × Bool))
    (hf : ∀ acc x j, getBump acc.1 j ≤ getBump (f acc x).1 j) :
    ∀ (xs : List α) (acc : List Bump × Bool) (j : Nat),
      getBump acc.1 j ≤ getBump (xs.foldl f acc).1 j := by
  intro xs
  induction xs with
  | nil => intro acc j; exact Bump.le_refl _
  | cons x xs ih =>
    intro acc j
    exact Bump.le_trans (hf acc x j) (ih (f acc x) j)

theorem nestedSweep_mono (pairs : List (Nat × Nat)) (acc : List Bump × Bool)
    (j : Nat) : getBump acc.1 j ≤ getBump (nestedSweep pairs acc).1 j := by
  unfold nestedSweep
  refine foldl_mono _ ?_ pairs acc j
  intro acc oi j
  exact Bump.le_trans (nestedDir_mono oi.2 (oi.1, oi.2) acc (Or.inr rfl) j)
    (nestedDir_mono oi.2 (oi.2, oi.1) _ (Or.inl rfl) j)

theorem depStep_mono (w : Workspace) (acc : List Bump × Bool) (id : Nat)
    (j : Nat) : getBump acc.1 j ≤ getBump (depStep w acc id).1 j := by
  unfold depStep
  split
  · exact Bump.le_refl _
  · exact foldl_mono _ (fun acc d j => depInner_mono w id acc d j) _ acc j

theorem runPass_mono (w : Workspace) (s : List Bump) (j : Nat) :
    getBump s j ≤ getBump (runPass w s).1 j := by
  unfold runPass
  exact Bump.le_trans (nestedSweep_mono w.nestedPairs (s, false) j)
    (foldl_mono _ (fun acc id j => depStep_mono w acc id j) _ _ j)

/-!
## Fixed-point characterisation: a pass that reports no change fired no rule
-/

theorem foldl_flag_false {α : Type} (f : (List Bump × Bool) → α → (List Bump × Bool))
    (hf : ∀ acc x, (f acc x).2 = false → f acc x = acc) :
    ∀ (xs : List α) (acc : List Bump × Bool),
      (xs.foldl f acc).2 = false →
      xs.foldl f acc = acc ∧ ∀ x ∈ xs, f acc x = acc := by
  intro xs
  induction xs with
  | nil =>
    intro acc h
    exact ⟨rfl, fun x hx => absurd hx (List.not_mem_nil x)⟩
  | cons x xs ih =>
    intro acc h
    rw [List.foldl_cons] at h
    obtain ⟨heq, hall⟩ := ih (f acc x) h
    have hflag : (f acc x).2 = false := by rw [← heq]; exact h
    have hfx : f acc x = acc := hf acc x hflag
    constructor
    · rw [List.foldl_cons, heq, hfx]
    · intro y hy
      rcases List.mem_cons.mp hy with rfl | hy
      · exact hfx
      · have := hall y hy
        rw [hfx] at this
        exact this

theorem nestedDir_flag_false {inner : Nat} {ab : Nat × Nat}
    {acc : List Bump × Bool} :
    (nestedDir inner ab acc).2 = false → nestedDir inner ab acc = acc := by
  unfold nestedDir
  split
  · intro h; cases h
  · intro _; rfl

theorem nestedPairStep_flag_false (oi : Nat × Nat) (acc : List Bump × Bool) :
    (nestedDir oi.2 (oi.2, oi.1) (nestedDir oi.2 (oi.1, oi.2) acc)).2 = false →
    nestedDir oi.2 (oi.2, oi.1) (nestedDir oi.2 (oi.1, oi.2) acc) = acc := by
  intro h
  have e1 := nestedDir_flag_false h
  have h1 : (nestedDir oi.2 (oi.1, oi.2) acc).2 = false := by
    rw [← e1]; exact h
  have e2 := nestedDir_flag_false h1
  rw [e1, e2]

theorem depInner_flag_false {w : Workspace} {id : Nat} {acc : List Bump × Bool}
    {d : Nat} : (depInner w id acc d).2 = false → depInner w id acc d = acc := by
  unfold depInner
  split
  · split
    · intro _; rfl
    · intro h; cases h
  · intro _; rfl

theorem depStep_flag_false {w : Workspace} {acc : List Bump × Bool} {id : Nat} :
    (depStep w acc id).2 = false → depStep w acc id = acc := by
  unfold depStep
  split
  · intro _; rfl
  · intro h
    exact (foldl_flag_false (depInner w id)
      (fun acc d => depInner_flag_false) (List.range w.n) acc h).1

/-!
## The propagation loop on the workspace `W0`
-/

theorem w0_first_pass :
    runPass W0 bumpSeed0 = ([Bump.none, Bump.patch, Bump.minor], true) := by
  decide

theorem w0_stuck_pass :
    runPass W0 [Bump.none, Bump.patch, Bump.minor] =
      ([Bump.none, Bump.patch, Bump.minor], true) := by
  decide

theorem passSeq_W0_const (k : Nat) :
    passSeq W0 bumpSeed0 (k + 1) = [Bump.none, Bump.patch, Bump.minor] := by
  induction k with
  | zero =>
    show (runPass W0 (passSeq W0 bumpSeed0 0)).1 = _
    rw [show passSeq W0 bumpSeed0 0 = bumpSeed0 from rfl, w0_first_pass]
  | succ k ih =>
    show (runPass W0 (passSeq W0 bumpSeed0 (k + 1))).1 = _
    rw [ih, w0_stuck_pass]

/-- C1: the claim states that for every workspace the propagation loop reaches
a pass with zero changes within (number of packages × 3) passes.  This fails:
on the workspace `W0` (a nested pair whose inner package depends on a bumped
third package) no pass ever reports zero changes, for any bound at all — the
inner→outer direction of the nested rule writes to the inner package instead
of the outer one, so it keeps firing without changing the state. -/
theorem propagation_loop_nontermination :
    ∀ bound, ¬ loopTerminatesWithin W0 bumpSeed0 bound := by
  intro bound
  rintro ⟨k, -, hflag⟩
  cases k with
  | zero =>
    rw [show passSeq W0 bumpSeed0 0 = bumpSeed0 from rfl, w0_first_pass] at hflag
    exact Bool.noConfusion hflag
  | succ k =>
    rw [passSeq_W0_const k, w0_stuck_pass] at hflag
    exact Bool.noConfusion hflag

/-- C2: the claim states that the nested-equality rule raises whichever side
of a nested pair is strictly less, so information also flows inner→outer.  It
does not: on a pair whose outer bump (`None`, index 0) is strictly below the
inner bump (`Patch`, index 1), the sweep fires (the change flag is set) yet
leaves the state — in particular the outer bump — completely unchanged,
because the assignment targets the inner package in both directions. -/
theorem nested_rule_inner_to_outer_broken :
    nestedSweep [(0, 1)] ([Bump.none, Bump.patch], false) =
      ([Bump.none, Bump.patch], true) := by
  decide

/-- C3: `PackageStatus.bump` is monotonically non-decreasing under
propagation: every nested-equality sweep, every dependency-rule iteration,
every full pass, and every pass-to-pass transition only raises bumps. -/
theorem bump_never_lowered (w : Workspace) (s : List Bump) (i : Nat) :
    (∀ pairs acc, getBump acc.1 i ≤ getBump (nestedSweep pairs acc).1 i)
  ∧ (∀ id acc d, getBump acc.1 i ≤ getBump (depInner w id acc d).1 i)
  ∧ (getBump s i ≤ getBump (runPass w s).1 i)
  ∧ (∀ k, getBump (passSeq w s k) i ≤ getBump (passSeq w s (k + 1)) i) := by
  refine ⟨fun pairs acc => nestedSweep_mono pairs acc i,
    fun id acc d => depInner_mono w id acc d i,
    runPass_mono w s i, fun k => ?_⟩
  show getBump (passSeq w s k) i ≤ getBump (runPass w (passSeq w s k)).1 i
  exact runPass_mono w (passSeq w s k) i

/-- C4: at a zero-change pass (the loop's exit condition), every direct
dependency edge where the dependency's bump is above `None` has a dependent
bump of at least `Patch`; and when the dependency rule fires it writes exactly
`Patch` to the dependent — never more, whatever the dependency's bump — and
changes nothing else. -/
theorem dep_rule_patch_floor (w : Workspace) (s : List Bump)
    (hfix : (runPass w s).2 = false) :
    (∀ p d, w.dependsOn d p = true → p < w.n → d < w.n →
        getBump s p ≠ Bump.none → Bump.patch ≤ getBump s d)
  ∧ (∀ id acc d, w.dependsOn d id = true →
        ¬ Bump.patch ≤ getBump acc.1 d → d < acc.1.length →
        getBump (depInner w id acc d).1 d = Bump.patch ∧
          ∀ j, j ≠ d → getBump (depInner w id acc d).1 j = getBump acc.1 j) := by
  constructor
  · unfold runPass at hfix
    obtain ⟨hN, hsteps⟩ := foldl_flag_false (depStep w)
      (fun acc id => depStep_flag_false) (List.range w.n)
      (nestedSweep w.nestedPairs (s, false)) hfix
    have hnsflag : (nestedSweep w.nestedPairs (s, false)).2 = false := by
      rw [← hN]; exact hfix
    have hnseq : nestedSweep w.nestedPairs (s, false) = (s, false) := by
      unfold nestedSweep at hnsflag ⊢
      exact (foldl_flag_false _ (fun acc oi => nestedPairStep_flag_false oi acc)
        w.nestedPairs (s, false) hnsflag).1
    rw [hnseq] at hsteps
    intro p d hdep hp hd hpn
    have hstep := hsteps p (List.mem_range.mpr hp)
    have hred : depStep w (s, false) p =
        if getBump s p = Bump.none then (s, false)
        else (List.range w.n).foldl (depInner w p) (s, false) := rfl
    rw [hred, if_neg hpn] at hstep
    obtain ⟨-, hinner⟩ := foldl_flag_false (depInner w p)
      (fun acc d => depInner_flag_false) (List.range w.n) (s, false)
      (by rw [hstep])
    have hdstep := hinner d (List.mem_range.mpr hd)
    by_contra hnle
    simp [depInner, hdep, hnle] at hdstep
  · intro id acc d hdep hnle hdlen
    have hred : depInner w id acc d = (acc.1.set d Bump.patch, true) := by
      simp [depInner, hdep, hnle]
    rw [hred]
    constructor
    · show getBump (acc.1.set d Bump.patch) d = Bump.patch
      rw [getBump_set_self, if_pos hdlen]
    · intro j hj
      exact getBump_set_ne (fun e => hj e.symm)

/-- Witness for C4: a two-package workspace at a fixed point — package 0
depends on package 1, whose bump is `Minor`; package 0 indeed carries at
least a `Patch` bump. -/
theorem dep_rule_patch_floor_witness :
    Bump.patch ≤ getBump [Bump.patch, Bump.minor] 0 :=
  (dep_rule_patch_floor
      { n := 2, nestedPairs := [], dependsOn := fun d p => d == 0 && p == 1 }
      [Bump.patch, Bump.minor] (by decide)).1 1 0 (by decide) (by decide)
    (by decide) (by decide)

/-!
## Commit attribution properties
-/

theorem count_filter_eq {α : Type} [DecidableEq α] (l : List α) (p : α → Bool)
    (a : α) : (l.filter p).count a = if p a then l.count a else 0 := by
  induction l with
  | nil => simp
  | cons x xs ih =>
    simp only [List.filter_cons]
    split
    · rename_i h
      by_cases hx : x = a
      · subst hx; simp [List.count_cons, h, ih]
      · simp [List.count_cons, hx, ih]
    · rename_i h
      by_cases hx : x = a
      · subst hx; simp [h, ih]
      · simp [List.count_cons, hx, ih]

theorem commitTouches_iff (pkgdir : List String) (c : CommitM) :
    commitTouches pkgdir c = true ↔
      ∃ diff ∈ c.parentDiffs, ∃ d ∈ diff, ∃ f : List String,
        (d.oldPath = some f ∨ d.newPath = some f) ∧
          pkgdir.isPrefixOf f = true := by
  simp only [commitTouches, deltaTouches, List.any_eq_true, List.mem_filterMap,
    List.mem_cons, List.not_mem_nil, or_false]
  constructor
  · rintro ⟨diff, hdiff, d, hd, f, ⟨o, ho | ho, hof⟩, hpre⟩
    · exact ⟨diff, hdiff, d, hd, f, Or.inl (ho.symm.trans hof), hpre⟩
    · exact ⟨diff, hdiff, d, hd, f, Or.inr (ho.symm.trans hof), hpre⟩
  · rintro ⟨diff, hdiff, d, hd, f, ho | ho, hpre⟩
    · exact ⟨diff, hdiff, d, hd, f, ⟨some f, Or.inl ho.symm, rfl⟩, hpre⟩
    · exact ⟨diff, hdiff, d, hd, f, ⟨some f, Or.inr ho.symm, rfl⟩, hpre⟩

/-- C5: a commit whose parent diffs touch only paths outside the package
directory never appears in the attributed list; a commit the walk yields once
and whose diffs touch at least one old or new path under the package directory
appears exactly once in the attributed list. -/
theorem commit_attribution_membership (pkgdir : List String)
    (walk : List CommitM) (c : CommitM) :
    ((∀ diff ∈ c.parentDiffs, ∀ d ∈ diff, ∀ f : List String,
        (d.oldPath = some f ∨ d.newPath = some f) →
          pkgdir.isPrefixOf f = false) →
      (attributeCommits pkgdir walk).count c = 0)
  ∧ (walk.count c = 1 →
      (∃ diff ∈ c.parentDiffs, ∃ d ∈ diff, ∃ f : List String,
        (d.oldPath = some f ∨ d.newPath = some f) ∧
          pkgdir.isPrefixOf f = true) →
      (attributeCommits pkgdir walk).count c = 1) := by
  constructor
  · intro h
    rw [attributeCommits, count_filter_eq, if_neg]
    intro htouch
    obtain ⟨diff, hdiff, d, hd, f, ho, hpre⟩ := (commitTouches_iff pkgdir c).mp htouch
    rw [h diff hdiff d hd f ho] at hpre
    cases hpre
  · intro hcount hex
    rw [attributeCommits, count_filter_eq, if_pos ((commitTouches_iff pkgdir c).mpr hex),
      hcount]

/-- Witness for C5: a commit adding one file under `pkg`, yielded once by the
walk, is attributed to the package exactly once. -/
theorem commit_attribution_membership_witness :
    (attributeCommits ["pkg"] [touchCommit]).count touchCommit = 1 :=
  (commit_attribution_membership ["pkg"] [touchCommit] touchCommit).2 (by decide)
    ⟨[{ oldPath := Option.none, newPath := some ["pkg", "f.rs"] }], by decide,
      { oldPath := Option.none, newPath := some ["pkg", "f.rs"] }, by decide,
      ["pkg", "f.rs"], Or.inr rfl, by decide⟩

/-- C6 counterexample: a root commit (zero parents) whose tree introduces a
file under the package directory `pkg` — the claim says it is attributed via
its tree contents, but it never enters the attributed list, because
attribution only inspects diffs against parents. -/
theorem root_commit_not_attributed_counterexample :
    (["pkg"].isPrefixOf ["pkg", "src", "lib.rs"] = true ∧
      ["pkg", "src", "lib.rs"] ∈ rootCommit.treeFiles) ∧
    rootCommit ∉ attributeCommits ["pkg"] [rootCommit] := by
  decide

/-- C6 amended: in from-root mode a commit with zero parents is never
attributed to any package, whatever files its tree introduces, since the
`changed` flag is only ever set inside the loop over parents. -/
theorem root_commit_never_attributed (pkgdir : List String)
    (walk : List CommitM) (c : CommitM) (h : c.parentDiffs = []) :
    c ∉ attributeCommits pkgdir walk := by
  intro hmem
  have htouch := (List.mem_filter.mp hmem).2
  simp [commitTouches, h] at htouch

/-- Witness for the amended C6: the concrete root commit is not in the
attributed list of package `pkg`. -/
theorem root_commit_never_attributed_witness :
    rootCommit ∉ attributeCommits ["pkg"] [rootCommit] :=
  root_commit_never_attributed ["pkg"] [rootCommit] rootCommit rfl

/-!
## Changelog insertion properties
-/

theorem splitMarker_self (m : List Char) (post : List Char) (hm : m ≠ []) :
    splitMarker m (m ++ post) = some ([], post) := by
  cases m with
  | nil => exact absurd rfl hm
  | cons c tl =>
    rw [List.cons_append, splitMarker]
    rw [if_pos (by rw [List.isPrefixOf_iff_prefix]; exact ⟨post, by simp⟩)]
    simp [List.drop_left']

theorem splitMarker_first_occurrence (m : List Char) (hm : m ≠ []) :
    ∀ pre post : List Char,
      (∀ i, i < pre.length → m.isPrefixOf ((pre ++ m ++ post).drop i) = false) →
      splitMarker m (pre ++ m ++ post) = some (pre, post) := by
  intro pre
  induction pre with
  | nil =>
    intro post _
    simpa using splitMarker_self m post hm
  | cons c pre ih =>
    intro post hocc
    have h0 : m.isPrefixOf (c :: (pre ++ m ++ post)) = false := by
      simpa using hocc 0 (Nat.succ_pos pre.length)
    have hshift : ∀ i, i < pre.length →
        m.isPrefixOf ((pre ++ m ++ post).drop i) = false := by
      intro i hi
      simpa using hocc (i + 1) (Nat.succ_lt_succ hi)
    have hrw : (c :: pre) ++ m ++ post = c :: (pre ++ m ++ post) := by simp
    rw [hrw, splitMarker, if_neg (by rw [h0]; exact Bool.false_ne_true),
      ih post hshift]
    rfl

/-- C7 counterexample: the claim says every character before and after the
marker is preserved, the only modification being the inserted entry right
after the marker.  On a changelog `"A\n<marker>B\n"` this fails: the code
writes the result of `trim`, which drops the trailing newline after `B`. -/
theorem changelog_insertion_counterexample :
    writeChangelogContent ("A\n" ++ COMMENT_START ++ "B\n").toList
        "1.2.4".toList "2026-10-12".toList "x".toList ≠
      "A\n".toList ++ markerChars ++
        entryChars "1.2.4".toList "2026-10-12".toList "x".toList ++
        "B\n".toList := by
  decide

/-- C7 amended: writing an entry into any changelog content containing the
marker — split at the marker's first occurrence, i.e. at the decomposition
`pre ++ marker ++ post` where no marker occurrence starts within `pre` —
keeps every character before and after the marker and inserts the entry
immediately after the marker, up to the final trim of leading and trailing
whitespace of the whole resulting file. -/
theorem changelog_insertion_preserves (old pre post ver date body : List Char)
    (hold : old = pre ++ markerChars ++ post)
    (hfirst : ∀ i, i < pre.length →
      markerChars.isPrefixOf (old.drop i) = false) :
    writeChangelogContent old ver date body =
      trimChars (pre ++ markerChars ++ entryChars ver date body ++ post) := by
  subst hold
  unfold writeChangelogContent
  rw [splitMarker_first_occurrence markerChars (by decide) pre post hfirst]

/-- Witness for the amended C7: a changelog whose pre-marker part even
contains a `<` of its own (an HTML tag above the marker). -/
theorem changelog_insertion_preserves_witness :
    writeChangelogContent ("<x>\n".toList ++ markerChars ++ "B\n".toList)
        "1.2.4".toList "2026-10-12".toList "x".toList =
      trimChars ("<x>\n".toList ++ markerChars ++
        entryChars "1.2.4".toList "2026-10-12".toList "x".toList ++
        "B\n".toList) :=
  changelog_insertion_preserves ("<x>\n".toList ++ markerChars ++ "B\n".toList)
    "<x>\n".toList "B\n".toList "1.2.4".toList "2026-10-12".toList "x".toList
    rfl (by decide)

/-!
## Output-phase properties
-/

/-- C9: the bump application arithmetic — `None` leaves the version unchanged,
`Patch` increments patch, `Minor` increments minor and resets patch, `Major`
increments major and resets minor and patch; in particular on 1.2.3 the
results are 2.0.0, 1.3.0 and 1.2.4. -/
theorem bump_apply_arithmetic :
    (∀ v : Version, Bump.apply Bump.none v = v)
  ∧ (∀ v : Version,
      Bump.apply Bump.patch v = { major := v.major, minor := v.minor, patch := v.patch + 1 })
  ∧ (∀ v : Version,
      Bump.apply Bump.minor v = { major := v.major, minor := v.minor + 1, patch := 0 })
  ∧ (∀ v : Version,
      Bump.apply Bump.major v = { major := v.major + 1, minor := 0, patch := 0 })
  ∧ Bump.apply Bump.major { major := 1, minor := 2, patch := 3 } =
      { major := 2, minor := 0, patch := 0 }
  ∧ Bump.apply Bump.minor { major := 1, minor := 2, patch := 3 } =
      { major := 1, minor := 3, patch := 0 }
  ∧ Bump.apply Bump.patch { major := 1, minor := 2, patch := 3 } =
      { major := 1, minor := 2, patch := 4 } :=
  ⟨fun _ => rfl, fun _ => rfl, fun _ => rfl, fun _ => rfl, rfl, rfl, rfl⟩

/-- C8: in dry-run mode (execute flag absent) the run performs no file writes
at all; it only produces the Markdown report. -/
theorem dry_run_performs_no_writes (date : List Char)
    (readFs : String → Option String) (sts : List PkgStatusM) :
    (runOutput false date readFs sts).2 = [] ∧
    (runOutput false date readFs sts).1 = dryRunReport sts :=
  ⟨rfl, rfl⟩

/-- C10: in execute mode every package — whatever its bump, `None` included —
gets its manifest written back with the version field set to the final
version; a changelog write happens for a package exactly when its changelog
text is non-empty. -/
theorem execute_mode_writes (date : List Char)
    (readFs : String → Option String) (sts : List PkgStatusM) :
    (∀ p ∈ sts,
        Effect.manifestWrite p.manifestPath
            (setManifestVersion p.manifest (versionString (final_version p))) ∈
          (runOutput true date readFs sts).2)
  ∧ (∀ p ∈ sts, p.changelog ≠ "" →
        Effect.changelogWrite p.changelogPath
            (writeChangelogContent ((readFs p.changelogPath).getD "").toList
              (versionString (final_version p)).toList date p.changelog.toList) ∈
          (runOutput true date readFs sts).2)
  ∧ (∀ e ∈ executeChangelogWrites date readFs sts,
        ∃ p ∈ sts, p.changelog ≠ "" ∧
          e = Effect.changelogWrite p.changelogPath
            (writeChangelogContent ((readFs p.changelogPath).getD "").toList
              (versionString (final_version p)).toList date p.changelog.toList)) := by
  refine ⟨?_, ?_, ?_⟩
  · intro p hp
    show _ ∈ executeChangelogWrites date readFs sts ++ executeManifestWrites sts
    exact List.mem_append_right _ (List.mem_map_of_mem _ hp)
  · intro p hp hne
    show _ ∈ executeChangelogWrites date readFs sts ++ executeManifestWrites sts
    refine List.mem_append_left _ (List.mem_filterMap.mpr ⟨p, hp, ?_⟩)
    simp [hne]
  · intro e he
    obtain ⟨p, hp, hpe⟩ := List.mem_filterMap.mp he
    by_cases hne : p.changelog = ""
    · rw [if_pos hne] at hpe
      cases hpe
    · rw [if_neg hne] at hpe
      exact ⟨p, hp, hne, (Option.some_inj.mp hpe).symm⟩

/-- Witness for C10: the sample package's manifest write, carrying the bumped
version 1.3.0, is among the execute-mode writes. -/
theorem execute_mode_writes_witness :
    Effect.manifestWrite samplePkg.manifestPath
        (setManifestVersion samplePkg.manifest
          (versionString (final_version samplePkg))) ∈
      (runOutput true [] (fun _ => Option.none) [samplePkg]).2 :=
  (execute_mode_writes [] (fun _ => Option.none) [samplePkg]).1 samplePkg
    (List.mem_singleton_self samplePkg)
